import Mathlib

/-!
Verification development for the ValutaTrade Hub rate-cache and
trade-settlement engine.  The Python source is shallowly embedded:
monetary values are modelled as exact rationals, in-place object
mutation becomes explicit state passing on an association-list
portfolio, and Python exceptions become explicit result constructors.
Timestamps are opaque strings; where the code parses them, the parse
is an explicit function argument `pt : String → Option ℤ` yielding
seconds, matching the second-granularity comparison in the source.
-/

namespace ValutaTrade

/-- ASCII uppercase of one character, as Python `str.upper` acts on
the code points used here. -/
def pyUpperChar (c : Char) : Char :=
  if c.isLower then Char.ofNat (c.toNat - 32) else c

/-- Python `str.upper` for the ASCII currency codes. -/
def pyUpper (s : String) : String :=
  ⟨s.data.map pyUpperChar⟩

/-- Python `str.split(sep)` on the character list. -/
def splitChar (sep : Char) : List Char → List (List Char)
  | [] => [[]]
  | c :: rest =>
    let r := splitChar sep rest
    if c = sep then [] :: r
    else
      match r with
      | [] => [[c]]
      | h :: t => (c :: h) :: t

/-- Python `str.split(sep)` for a one-character separator. -/
def pySplit (sep : Char) (s : String) : List String :=
  (splitChar sep s.data).map fun l => ⟨l⟩

/-- Python `str.strip()`. -/
def pyStrip (s : String) : String :=
  ⟨((s.data.dropWhile Char.isWhitespace).reverse.dropWhile
      Char.isWhitespace).reverse⟩

/-- Python `str.replace(" ", "T")`. -/
def pyReplaceSpaceT (s : String) : String :=
  ⟨s.data.map fun c => if c = ' ' then 'T' else c⟩

/-- Python `str.rstrip("Z")`. -/
def pyRStripZ (s : String) : String :=
  ⟨(s.data.reverse.dropWhile (· = 'Z')).reverse⟩

/-- The static currency registry from `core/currencies.py`
(`_initialize` + fiats and cryptos lists): codes accepted by
`get_currency`. -/
def CURRENCY_REGISTRY : List String :=
  ["USD", "EUR", "RUB", "GBP", "JPY", "CHF",
   "BTC", "ETH", "LTC", "XRP", "ADA"]

/-- A portfolio is the `wallets` dict of `core/models.py::Portfolio`:
currency code to balance, insertion ordered. -/
abbrev Portfolio := List (String × ℚ)

/-- Dictionary lookup on the wallets map. -/
def lookupW : Portfolio → String → Option ℚ
  | [], _ => none
  | (c', b) :: rest, c => if c' = c then some b else lookupW rest c

/-- Balance of a wallet, 0 when the wallet does not exist. -/
def bal (p : Portfolio) (c : String) : ℚ :=
  (lookupW p c).getD 0

/-- Whether the portfolio holds a wallet for `c`
(`currency_code in portfolio.wallets`). -/
def hasWallet (p : Portfolio) (c : String) : Bool :=
  (lookupW p c).isSome

/-- Dictionary write: overwrite the existing key or append a new one
(Python dict assignment preserves insertion order). -/
def setBal : Portfolio → String → ℚ → Portfolio
  | [], c, v => [(c, v)]
  | (c', b) :: rest, c, v =>
      if c' = c then (c, v) :: rest else (c', b) :: setBal rest c v

/-- `Portfolio.add_currency` guarded by the `not in` check in
`buy_currency`/`sell_currency`: create a zero wallet when absent. -/
def ensure (p : Portfolio) (c : String) : Portfolio :=
  if hasWallet p c then p else p ++ [(c, 0)]

/-- Every stored wallet balance is non-negative — the `Wallet`
invariant of `core/models.py` (the `balance` setter rejects negative
values). -/
def NonNegP (p : Portfolio) : Prop :=
  ∀ e ∈ p, 0 ≤ e.2

instance (p : Portfolio) : Decidable (NonNegP p) := by
  unfold NonNegP
  infer_instance

/-- `Wallet.deposit` from `core/models.py`, acting on the balance.
`none` models the `ValueError` raised for a non-positive amount, and
the `balance` setter's rejection of a negative result. -/
def walletDeposit (b amount : ℚ) : Option ℚ :=
  if amount ≤ 0 then none
  else if b + amount < 0 then none
  else some (b + amount)

/-- `Wallet.withdraw` from `core/models.py`: `none` is the
`ValueError` for a non-positive amount; otherwise the returned `Bool`
is the method's insufficient-funds signal and the rational is the
resulting balance. -/
def walletWithdraw (b amount : ℚ) : Option (Bool × ℚ) :=
  if amount ≤ 0 then none
  else if amount > b then some (false, b)
  else if b - amount < 0 then none
  else some (true, b - amount)

/-- Collaborator outcomes threaded into `buy_currency` /
`sell_currency`: session state, settings values, the outcome of the
`RateManager.get_rate` call (`none` models its `ApiRequestError`),
and whether `_save_portfolios` succeeds. -/
structure TradeEnv where
  loggedIn : Bool
  minTrade : ℚ
  commissionRate : ℚ
  rateOutcome : Option ℚ
  saveOk : Bool

/-- Result of `PortfolioManager.buy_currency`: `err*` constructors are
raised exceptions, `soft*` are `(False, message)` returns, `bought`
is the `(True, message)` return carrying the executed amount, rate
and estimated cost. -/
inductive BuyResult where
  | errNotAuthenticated
  | errInvalidAmount
  | errCurrencyNotFound
  | errApi
  | softMinAmount
  | softInsufficient (required available : ℚ)
  | softSaveFailed
  | softOpError
  | bought (amount rate cost : ℚ)
deriving Repr, DecidableEq

/-- Result of `PortfolioManager.sell_currency`; `errInsufficient`
carries the `InsufficientFundsError(available, required, code)`
payload. -/
inductive SellResult where
  | errNotAuthenticated
  | errInvalidAmount
  | errCurrencyNotFound
  | errInsufficient (available required : ℚ) (code : String)
  | errApi
  | softMinAmount
  | softNoWallet
  | softSaveFailed
  | softOpError
  | sold (amount rate revenue : ℚ)
deriving Repr, DecidableEq

/-- `cost_usd` as computed in `buy_currency`: `amount * rate`, plus
`cost * commission_rate` when the configured commission is positive. -/
def buyCost (amount rate cr : ℚ) : ℚ :=
  let cost := amount * rate
  if cr > 0 then cost + cost * cr else cost

/-- `revenue_usd` as computed in `sell_currency`: `amount * rate`,
minus `revenue * commission_rate` when the commission is positive. -/
def sellRevenue (amount rate cr : ℚ) : ℚ :=
  let revenue := amount * rate
  if cr > 0 then revenue - revenue * cr else revenue

/-- The `try` block of `buy_currency` after the wallets exist: the
insufficiency soft failure, the withdraw/deposit pair, and the
compensating rollback when `_save_portfolios` fails.  Generic
exceptions caught by the final `except` become `softOpError`; the
return value of `withdraw` is ignored exactly as in the source. -/
def buyApply (saveOk : Bool) (p2 : Portfolio) (cu : String)
    (amount rate cost : ℚ) : BuyResult × Portfolio :=
  let usdBal := bal p2 "USD"
  if usdBal < cost then (.softInsufficient cost usdBal, p2)
  else
    match walletWithdraw usdBal cost with
    | none => (.softOpError, p2)
    | some (_, usdBal1) =>
      let p3 := setBal p2 "USD" usdBal1
      match walletDeposit (bal p3 cu) amount with
      | none => (.softOpError, p3)
      | some tBal1 =>
        let p4 := setBal p3 cu tBal1
        if saveOk then (.bought amount rate (amount * rate), p4)
        else
          match walletDeposit (bal p4 "USD") cost with
          | none => (.softOpError, p4)
          | some usdBal2 =>
            let p5 := setBal p4 "USD" usdBal2
            match walletWithdraw (bal p5 cu) amount with
            | none => (.softOpError, p5)
            | some (_, tBal2) =>
              (.softSaveFailed, setBal p5 cu tBal2)

/-- `PortfolioManager.buy_currency` (usecases.py).  Mirrors the
source's control flow: authentication, amount validation,
`get_currency` registry check, minimum-trade check, rate lookup, cost
computation, wallet auto-creation, then the `try` block
(`buyApply`). -/
def buy_currency (env : TradeEnv) (p : Portfolio) (code : String)
    (amount : ℚ) : BuyResult × Portfolio :=
  if !env.loggedIn then (.errNotAuthenticated, p)
  else if amount ≤ 0 then (.errInvalidAmount, p)
  else
    let code := pyUpper code
    if code ∉ CURRENCY_REGISTRY then (.errCurrencyNotFound, p)
    else if amount < env.minTrade then (.softMinAmount, p)
    else
      match env.rateOutcome with
      | none => (.errApi, p)
      | some rate =>
        buyApply env.saveOk (ensure (ensure p "USD") code) code
          amount rate (buyCost amount rate env.commissionRate)

/-- The `try` block of `sell_currency`: withdraw from the source
wallet, deposit the revenue, and compensate both on a persistence
failure.  As in the source, a `ValueError` from `deposit`
(non-positive revenue) is swallowed by the generic `except` after
the withdrawal already happened. -/
def sellApply (saveOk : Bool) (p : Portfolio) (cu : String)
    (amount rate revenue : ℚ) : SellResult × Portfolio :=
  let p1 := ensure p "USD"
  match walletWithdraw (bal p1 cu) amount with
  | none => (.softOpError, p1)
  | some (_, sBal1) =>
    let p2 := setBal p1 cu sBal1
    match walletDeposit (bal p2 "USD") revenue with
    | none => (.softOpError, p2)
    | some uBal1 =>
      let p3 := setBal p2 "USD" uBal1
      if saveOk then (.sold amount rate (amount * rate), p3)
      else
        match walletDeposit (bal p3 cu) amount with
        | none => (.softOpError, p3)
        | some sBal2 =>
          let p4 := setBal p3 cu sBal2
          match walletWithdraw (bal p4 "USD") revenue with
          | none => (.softOpError, p4)
          | some (_, uBal2) =>
            (.softSaveFailed, setBal p4 "USD" uBal2)

/-- `PortfolioManager.sell_currency` (usecases.py).  The wallet
existence and the hard `InsufficientFundsError` checks precede the
rate lookup; the `try` block is `sellApply`. -/
def sell_currency (env : TradeEnv) (p : Portfolio) (code : String)
    (amount : ℚ) : SellResult × Portfolio :=
  if !env.loggedIn then (.errNotAuthenticated, p)
  else if amount ≤ 0 then (.errInvalidAmount, p)
  else
    let code := pyUpper code
    if code ∉ CURRENCY_REGISTRY then (.errCurrencyNotFound, p)
    else if amount < env.minTrade then (.softMinAmount, p)
    else if !hasWallet p code then (.softNoWallet, p)
    else
      let curBal := bal p code
      if curBal < amount then (.errInsufficient curBal amount code, p)
      else
        match env.rateOutcome with
        | none => (.errApi, p)
        | some rate =>
          sellApply env.saveOk p code amount rate
            (sellRevenue amount rate env.commissionRate)

/-- One call against the ledger: a direct `Wallet.deposit` or
`Wallet.withdraw` on an existing wallet, or a full
`buy_currency`/`sell_currency` use-case call. -/
inductive Op where
  | dep (code : String) (amount : ℚ)
  | wd (code : String) (amount : ℚ)
  | buyOp (env : TradeEnv) (code : String) (amount : ℚ)
  | sellOp (env : TradeEnv) (code : String) (amount : ℚ)

/-- Resulting portfolio state after one operation, including the
states left behind by failed or raising calls. -/
def applyOp (p : Portfolio) : Op → Portfolio
  | .dep c a =>
      match lookupW p c with
      | none => p
      | some b =>
        match walletDeposit b a with
        | none => p
        | some b1 => setBal p c b1
  | .wd c a =>
      match lookupW p c with
      | none => p
      | some b =>
        match walletWithdraw b a with
        | none => p
        | some (_, b1) => setBal p c b1
  | .buyOp env c a => (buy_currency env p c a).2
  | .sellOp env c a => (sell_currency env p c a).2

/-- State after a finite sequence of ledger calls. -/
def applyOps (p : Portfolio) (ops : List Op) : Portfolio :=
  ops.foldl applyOp p

/-- One entry of the nested rates cache (`rates.json` new format):
the value under a `"FROM_TO"` key of `"pairs"`. -/
structure PairEntry where
  rate : ℚ
  updated_at : String
  source : String
deriving Repr, DecidableEq

/-- The in-memory `RateManager._rates_data` in the new format. -/
structure CacheDoc where
  pairs : List (String × PairEntry)
  last_refresh : Option String
deriving Repr, DecidableEq

/-- A pair value in the legacy flat `rates.json` format (also what
`ExchangeRatesStorage.update_rates_cache` writes): every field is
read back with `.get`, so each is optional. -/
structure FlatEntry where
  rate : Option ℚ
  updated_at : Option String
  source : Option String
deriving Repr, DecidableEq

/-- A flat-format rates document: the non-meta keys (currency pairs),
plus the top-level `source` and `last_refresh` keys. -/
structure FlatDoc where
  entries : List (String × FlatEntry)
  source : Option String
  last_refresh : Option String
deriving Repr, DecidableEq

/-- One value of the `{currency: rate_info}` dictionaries built by
`RatesUpdater`: rate plus optional `timestamp` / `updated_at` /
`source` fields accessed with `.get`. -/
structure RawInfo where
  rate : ℚ
  timestamp : Option String
  source : Option String
deriving Repr, DecidableEq

/-- `rate_info.get("timestamp", rate_info.get("updated_at", now))`
with no separate `updated_at` key in the updater-built dicts. -/
def tsOf (now : String) (i : RawInfo) : String :=
  i.timestamp.getD now

/-- `RateManager._convert_old_format` (usecases.py): migrate a flat
document into the nested `pairs` form.  `now` is the
`datetime.now().isoformat() + "Z"` fallback. -/
def convert_old_format (now : String) (d : FlatDoc) : CacheDoc :=
  { pairs := d.entries.map fun e =>
      (e.1,
       { rate := e.2.rate.getD 0
         updated_at := e.2.updated_at.getD now
         source := e.2.source.getD (d.source.getD "Unknown") })
    last_refresh := some (d.last_refresh.getD now) }

/-- `ExchangeRatesStorage.update_rates_cache` (storage.py): the flat
cache document written to `rates.json`.  `now` is the write-time
timestamp (`datetime.now().isoformat() + "Z"`); USD, the base
currency, is skipped; per-pair `source` is not written. -/
def update_rates_cache (now : String)
    (rates_data : List (String × RawInfo)) : FlatDoc :=
  { source := some "ParserService"
    last_refresh := some now
    entries := rates_data.filterMap fun ci =>
      if ci.1 = "USD" then none
      else some (ci.1 ++ "_USD",
        { rate := some ci.2.rate
          updated_at := some (tsOf now ci.2)
          source := none }) }

/-- `RatesUpdater._add_metadata` (updater.py): the nested snapshot
returned by `run_update`, with the synthesized base self pair.
`t` is `update_time.isoformat() + "Z"`. -/
def add_metadata (t : String) (raw : List (String × RawInfo)) :
    CacheDoc :=
  { pairs :=
      (raw.filterMap fun ci =>
        if ci.1 = "USD" then none
        else some (ci.1 ++ "_USD",
          { rate := ci.2.rate
            updated_at := tsOf t ci.2
            source := ci.2.source.getD "Unknown" }))
      ++ [("USD_USD", { rate := 1, updated_at := t, source := "System" })]
    last_refresh := some t }

/-- `RatesUpdater._fetch_crypto_rates_safe`: any exception from the
client, and an empty response, both yield `{}`; otherwise the pair
keys are split on the underscore and re-keyed by currency code with
source `"CoinGecko"` and the shared fetch timestamp `ts`. -/
def crypto_safe (ts : String)
    (fetch : Option (List (String × ℚ))) : List (String × RawInfo) :=
  match fetch with
  | none => []
  | some raw =>
    if raw = [] then []
    else raw.filterMap fun pr =>
      match pySplit '_' pr.1 with
      | c :: _ :: _ =>
        some (c, { rate := pr.2, timestamp := some ts,
                   source := some "CoinGecko" })
      | _ => none

/-- `RatesUpdater._fetch_fiat_rates_safe`: like the crypto wrapper
but skipping the base currency and tagging the mock source. -/
def fiat_safe (ts : String) (mock : Bool)
    (fetch : Option (List (String × ℚ))) : List (String × RawInfo) :=
  match fetch with
  | none => []
  | some raw =>
    if raw = [] then []
    else raw.filterMap fun pr =>
      match pySplit '_' pr.1 with
      | c :: _ :: _ =>
        if c = "USD" then none
        else
          let src := if mock then "ExchangeRate-API (mock)"
                     else "ExchangeRate-API"
          some (c, { rate := pr.2, timestamp := some ts,
                     source := some src })
      | _ => none

/-- Everything `RatesUpdater.run_update` produces that later code can
observe: the snapshot it returns and the flat cache document it
persists through `update_rates_cache`. -/
structure UpdateResult where
  finalRates : CacheDoc
  cacheDoc : FlatDoc
deriving Repr, DecidableEq

/-- `RatesUpdater.run_update` (updater.py): fetch from both adapters
through the safe wrappers, merge, add the base-currency entry (rate
1.0, source `"System"`), build the returned snapshot via
`_add_metadata`, and persist the flat cache via
`update_rates_cache`.  `tStart` is `update_start.isoformat() + "Z"`,
`tCacheWrite` the write-time stamp inside `update_rates_cache`,
`tsC`/`tsF` the stamps taken inside the two safe wrappers. -/
def run_update (tStart tCacheWrite tsC tsF : String) (mock : Bool)
    (cryptoFetch fiatFetch : Option (List (String × ℚ))) :
    UpdateResult :=
  let allRaw :=
    crypto_safe tsC cryptoFetch ++ fiat_safe tsF mock fiatFetch
      ++ [("USD", { rate := 1, timestamp := some tStart,
                    source := some "System" })]
  { finalRates := add_metadata tStart allRaw
    cacheDoc := update_rates_cache tCacheWrite allRaw }

/-- `RateManager._load_rates` on a flat file (the format
`update_rates_cache` writes has no `"pairs"` key, so the load always
migrates through `_convert_old_format`). -/
def load_rates (now : String) (file : FlatDoc) : CacheDoc :=
  convert_old_format now file

/-- A historical rate record (`exchange_rates.json` format). -/
structure RateRecord where
  id : String
  from_currency : String
  to_currency : String
  rate : ℚ
  timestamp : String
  source : String
deriving Repr, DecidableEq

/-- `ExchangeRatesStorage._generate_id`: normalize the timestamp and
join `FROM_TO_<stamp>Z`. -/
def generate_id (f t stamp : String) : String :=
  let norm := pyRStripZ (pyReplaceSpaceT stamp) ++ "Z"
  pyUpper f ++ "_" ++ pyUpper t ++ "_" ++ norm

/-- The code-validity test of `create_exchange_rate_record`:
2 to 5 alphabetic characters. -/
def validCode (c : String) : Bool :=
  2 ≤ c.length && c.length ≤ 5 && c.data.all Char.isAlpha

/-- `ExchangeRatesStorage.create_exchange_rate_record` (storage.py):
validate the codes and the rate (strictly positive), then build the
record.  `.error` models the raised `ValueError`. -/
def create_exchange_rate_record (now : String) (f t : String)
    (rate : ℚ) (source : String) : Except String RateRecord :=
  let f := pyStrip (pyUpper f)
  let t := pyStrip (pyUpper t)
  if !validCode f then .error ("bad code " ++ f)
  else if !validCode t then .error ("bad code " ++ t)
  else if rate ≤ 0 then .error "bad rate"
  else .ok
    { id := generate_id f t now
      from_currency := f
      to_currency := t
      rate := rate
      timestamp := now
      source := source }

/-- Lookup of a pair key in the nested cache. -/
def lookupP : List (String × PairEntry) → String → Option PairEntry
  | [], _ => none
  | (k, e) :: rest, key => if k = key then some e else lookupP rest key

/-- `RateManager._is_rate_fresh`: parse `updated_at` (the
strip-Z-and-fraction ISO parse is the abstract `pt`, yielding
seconds); a malformed stamp is never fresh; otherwise fresh iff the
age `now - t` is strictly below the TTL. -/
def is_rate_fresh (pt : String → Option ℤ) (now ttl : ℤ)
    (e : PairEntry) : Bool :=
  match pt e.updated_at with
  | none => false
  | some t => now - t < ttl

/-- `RateManager._get_rate_from_cache`: the pair's `(rate,
updated_at)` when the entry exists and is fresh. -/
def get_rate_from_cache (pt : String → Option ℤ) (now ttl : ℤ)
    (st : CacheDoc) (f t : String) : Option (ℚ × String) :=
  match lookupP st.pairs (f ++ "_" ++ t) with
  | none => none
  | some e =>
    if is_rate_fresh pt now ttl e then some (e.rate, e.updated_at)
    else none

/-- Outcome of `RateManager.get_rate`: `ok` is the
`(True, message, rate, updated_at)` return; the `err*` constructors
are the raised `CurrencyNotFoundError` and the three distinct
`ApiRequestError` sites (pair absent while the whole cache is fresh;
`update_rates` failed; pair still absent after a refresh). -/
inductive RateResult where
  | errCurrencyNotFound
  | errUnavailableInCache
  | errUpdateFailed
  | errStillUnavailable
  | ok (rate : ℚ) (updated_at : String)
deriving Repr, DecidableEq

/-- `RateManager.get_rate` (usecases.py).  Returns the result, the
resulting `_rates_data` state, and whether the refresh path
(`update_rates`, which fans out to the provider adapters) ran.
`refreshOutcome` abstracts that path: `none` models its raised
`ApiRequestError`, `some st1` the reloaded cache after a successful
update. -/
def get_rate (pt : String → Option ℤ) (now ttl : ℤ) (st : CacheDoc)
    (refreshOutcome : Option CacheDoc) (f t : String) :
    RateResult × CacheDoc × Bool :=
  if pyUpper f ∉ CURRENCY_REGISTRY ∨ pyUpper t ∉ CURRENCY_REGISTRY then
    (.errCurrencyNotFound, st, false)
  else
    let f := pyUpper f
    let t := pyUpper t
    match get_rate_from_cache pt now ttl st f t with
    | some (r, u) => (.ok r u, st, false)
    | none =>
      let freshDb :=
        match st.last_refresh with
        | none => false
        | some s =>
          match pt s with
          | none => false
          | some lr => now - lr < ttl
      if freshDb then (.errUnavailableInCache, st, false)
      else
        match refreshOutcome with
        | none => (.errUpdateFailed, st, true)
        | some st1 =>
          match get_rate_from_cache pt now ttl st1 f t with
          | some (r, u) => (.ok r u, st1, true)
          | none => (.errStillUnavailable, st1, true)

/-- The deterministic rate table of
`ExchangeRateApiClient._get_mock_rates` (api_clients.py), also
returned by `_get_fallback_rates`. -/
def MOCK_RATES : List (String × ℚ) :=
  [("EUR_USD", 10786 / 10000),
   ("GBP_USD", 12598 / 10000),
   ("RUB_USD", 1016 / 100000),
   ("JPY_USD", 667 / 100000),
   ("CHF_USD", 11350 / 10000),
   ("USD_USD", 1)]

/-- What happened inside the `try` block of the fiat
`fetch_rates` before its `except` clauses: an error already
classified as `ApiRequestError` (HTTP/ratelimit/auth/JSON errors
from `_make_request`, or a non-success `result` field), any other
exception (e.g. an unexpected response shape), or a parsed response
body made of the requested pair rates. -/
inductive FetchOutcome where
  | apiError
  | otherError
  | okBody (rates : List (String × ℚ))
deriving Repr, DecidableEq

/-- `ExchangeRateApiClient.fetch_rates` (api_clients.py): mock mode
returns the mock table; an `ApiRequestError` propagates (`.error`);
any other exception falls back to `_get_fallback_rates`, i.e. the
mock table; a live success keeps the requested fiat codes found in
the body and appends the `USD_USD = 1.0` base pair. -/
def fetch_rates_fiat (mock : Bool) (outcome : FetchOutcome)
    (fiatCurrencies : List String) :
    Except Unit (List (String × ℚ)) :=
  if mock then .ok MOCK_RATES
  else
    match outcome with
    | .apiError => .error ()
    | .otherError => .ok MOCK_RATES
    | .okBody body =>
      .ok ((fiatCurrencies.filterMap fun c =>
              match lookupW body c with
              | some r => some (c ++ "_USD", r)
              | none => none)
           ++ [("USD_USD", 1)])

/-- The fixed in-code conversion table of
`Portfolio.get_total_value` (core/models.py), decimals read as exact
rationals. -/
def EXCHANGE_RATES : List (String × List (String × ℚ)) :=
  [("USD", [("USD", 1), ("EUR", 92 / 100), ("BTC", 25 / 1000000),
            ("RUB", 95), ("ETH", 27 / 100000)]),
   ("EUR", [("USD", 108 / 100), ("EUR", 1), ("BTC", 27 / 1000000),
            ("RUB", 102), ("ETH", 29 / 100000)]),
   ("BTC", [("USD", 40000), ("EUR", 37000), ("BTC", 1),
            ("RUB", 3800000), ("ETH", 105 / 10)]),
   ("RUB", [("USD", 105 / 10000), ("EUR", 98 / 10000),
            ("BTC", 26 / 100000000), ("RUB", 1),
            ("ETH", 28 / 10000000)]),
   ("ETH", [("USD", 3720), ("EUR", 3400), ("BTC", 93 / 1000),
            ("RUB", 350000), ("ETH", 1)])]

/-- Row of the fixed table for a currency. -/
def tableRow (c : String) : Option (List (String × ℚ)) :=
  match EXCHANGE_RATES.find? (fun r => r.1 = c) with
  | some r => some r.2
  | none => none

/-- `exchange_rates[c][b]` when both keys exist. -/
def tableLookup (c b : String) : Option ℚ :=
  match tableRow c with
  | none => none
  | some row => lookupW row b

/-- `round(x, 2)` idealized over the rationals: round the number of
cents to the nearest integer. -/
def round2 (q : ℚ) : ℚ :=
  ((round (q * 100) : ℤ) : ℚ) / 100

/-- Per-wallet accumulation step of `Portfolio.get_total_value`:
direct table rate, identity for the base currency itself, else the
via-USD route, else the wallet is silently skipped. -/
def totalStep (base : String) (acc : ℚ) (w : String × ℚ) : ℚ :=
  let c := pyUpper w.1
  match tableLookup c base with
  | some r => acc + w.2 * r
  | none =>
    if c = base then acc + w.2
    else
      match tableLookup c "USD" with
      | none => acc
      | some toUsd =>
        match tableLookup "USD" base with
        | some r2 => acc + w.2 * toUsd * r2
        | none => acc + w.2 * toUsd

/-- `Portfolio.get_total_value` (core/models.py): normalize the base
currency (fall back to USD when not in the fixed table), fold the
wallets through `totalStep`, and round to two decimals.  The live
rate cache is never consulted. -/
def get_total_value (p : Portfolio) (base : String) : ℚ :=
  let b0 := pyUpper base
  let b := if (tableRow b0).isSome then b0 else "USD"
  round2 (p.foldl (totalStep b) 0)

/-- Result of `PortfolioManager.show_portfolio`: the not-logged-in
soft failure, the empty-portfolio success, or the loaded data with
its computed total value. -/
inductive ShowResult where
  | notLogged
  | empty
  | loaded (data : List (String × ℚ)) (total : ℚ)
deriving Repr, DecidableEq

/-- `PortfolioManager.show_portfolio` (usecases.py): requires a
session, substitutes the configured default base for an empty or
`"USD"` argument, and reports balances plus
`Portfolio.get_total_value`.  No error path exists for unavailable
conversion rates. -/
def show_portfolio (loggedIn : Bool) (defaultBase : String)
    (p : Portfolio) (base : String) : ShowResult :=
  if !loggedIn then .notLogged
  else
    let b := if base = "" ∨ base = "USD" then defaultBase else base
    if p = [] then .empty
    else .loaded p (get_total_value p b)

/-- Specification-level conversion route for the amended C9: the
rate `get_total_value` effectively applies to one wallet, `none`
when the wallet contributes nothing. -/
def routeRate (c base : String) : Option ℚ :=
  match tableLookup c base with
  | some r => some r
  | none =>
    if c = base then some 1
    else
      match tableLookup c "USD" with
      | none => none
      | some toUsd =>
        match tableLookup "USD" base with
        | some r2 => some (toUsd * r2)
        | none => some toUsd

/-! ### Helper lemmas about the portfolio map -/

theorem lookupW_setBal_self (p : Portfolio) (c : String) (v : ℚ) :
    lookupW (setBal p c v) c = some v := by
  induction p with
  | nil => simp [setBal, lookupW]
  | cons e rest ih =>
    obtain ⟨c', b⟩ := e
    by_cases h : c' = c
    · simp [setBal, h, lookupW]
    · simp [setBal, h, lookupW, ih]

theorem lookupW_setBal_ne (p : Portfolio) (c c' : String) (v : ℚ)
    (h : c' ≠ c) : lookupW (setBal p c v) c' = lookupW p c' := by
  have h1 : ¬ (c = c') := fun hh => h (Eq.symm hh)
  induction p with
  | nil => simp [setBal, lookupW, h1]
  | cons e rest ih =>
    obtain ⟨k, b⟩ := e
    by_cases hk : k = c
    · have h2 : ¬ (k = c') := by rw [hk]; exact h1
      simp [setBal, hk, lookupW, h1, h2]
    · by_cases hk' : k = c'
      · simp [setBal, hk, lookupW, hk', h]
      · simp [setBal, hk, lookupW, hk', ih]

theorem bal_setBal_self (p : Portfolio) (c : String) (v : ℚ) :
    bal (setBal p c v) c = v := by
  simp [bal, lookupW_setBal_self]

theorem bal_setBal_ne (p : Portfolio) (c c' : String) (v : ℚ)
    (h : c' ≠ c) : bal (setBal p c v) c' = bal p c' := by
  simp [bal, lookupW_setBal_ne _ _ _ _ h]

theorem lookupW_append_none (p q : Portfolio) (c : String)
    (h : lookupW p c = none) :
    lookupW (p ++ q) c = lookupW q c := by
  induction p with
  | nil => simp
  | cons e rest ih =>
    obtain ⟨k, b⟩ := e
    by_cases hk : k = c
    · simp [lookupW, hk] at h
    · simp [lookupW, hk] at h ⊢
      exact ih h

theorem lookupW_append_some (p q : Portfolio) (c : String) (b : ℚ)
    (h : lookupW p c = some b) :
    lookupW (p ++ q) c = some b := by
  induction p with
  | nil => simp [lookupW] at h
  | cons e rest ih =>
    obtain ⟨k, v⟩ := e
    by_cases hk : k = c
    · simp [lookupW, hk] at h ⊢
      exact h
    · simp [lookupW, hk] at h ⊢
      exact ih h

theorem bal_ensure (p : Portfolio) (c c' : String) :
    bal (ensure p c) c' = bal p c' := by
  unfold ensure
  by_cases h : hasWallet p c
  · simp [h]
  · simp [h]
    simp [hasWallet, Option.isSome_iff_exists] at h
    by_cases hc : c' = c
    · subst hc
      cases hl : lookupW p c' with
      | none => simp [bal, lookupW_append_none _ _ _ hl, lookupW, hl]
      | some b => exact absurd hl (h b)
    · cases hl : lookupW p c' with
      | none =>
        have h1 : ¬ (c = c') := fun hh => hc (Eq.symm hh)
        simp [bal, lookupW_append_none _ _ _ hl, lookupW, h1, hl]
      | some b => simp [bal, lookupW_append_some _ _ _ _ hl, hl]

theorem lookupW_mem (p : Portfolio) (c : String) (b : ℚ)
    (h : lookupW p c = some b) : (c, b) ∈ p := by
  induction p with
  | nil => simp [lookupW] at h
  | cons e rest ih =>
    obtain ⟨k, v⟩ := e
    by_cases hk : k = c
    · subst hk
      simp [lookupW] at h
      simp [h]
    · simp [lookupW, hk] at h
      simp [ih h]

theorem bal_nonneg (p : Portfolio) (c : String) (h : NonNegP p) :
    0 ≤ bal p c := by
  unfold bal
  cases hl : lookupW p c with
  | none => simp
  | some b =>
    simpa using h (c, b) (lookupW_mem _ _ _ hl)

theorem nonNegP_setBal (p : Portfolio) (c : String) (v : ℚ)
    (h : NonNegP p) (hv : 0 ≤ v) : NonNegP (setBal p c v) := by
  induction p with
  | nil =>
    intro e he
    simp [setBal] at he
    simp [he, hv]
  | cons e rest ih =>
    obtain ⟨k, b⟩ := e
    have hrest : NonNegP rest := fun x hx => h x (List.mem_cons_of_mem _ hx)
    by_cases hk : k = c
    · intro x hx
      simp [setBal, hk] at hx
      rcases hx with hx | hx
      · simp [hx, hv]
      · exact hrest x hx
    · intro x hx
      simp [setBal, hk] at hx
      rcases hx with hx | hx
      · subst hx
        simpa using h (k, b) (by simp)
      · exact ih hrest x hx

theorem nonNegP_ensure (p : Portfolio) (c : String)
    (h : NonNegP p) : NonNegP (ensure p c) := by
  unfold ensure
  by_cases hw : hasWallet p c
  · simpa [hw] using h
  · simp [hw]
    intro x hx
    rcases List.mem_append.mp hx with hx | hx
    · exact h x hx
    · simp at hx
      simp [hx]

theorem walletDeposit_nonneg (b a b1 : ℚ)
    (h : walletDeposit b a = some b1) : 0 ≤ b1 := by
  unfold walletDeposit at h
  split at h
  · exact absurd h (by simp)
  · split at h
    · exact absurd h (by simp)
    · simp at h
      subst h
      linarith [not_lt.mp (by assumption : ¬ b + a < 0)]

theorem walletWithdraw_nonneg (b a : ℚ) (k : Bool) (b1 : ℚ)
    (hb : 0 ≤ b) (h : walletWithdraw b a = some (k, b1)) : 0 ≤ b1 := by
  unfold walletWithdraw at h
  split at h
  · exact absurd h (by simp)
  · split at h
    · simp only [Option.some.injEq, Prod.mk.injEq] at h
      obtain ⟨-, h2⟩ := h
      subst h2
      exact hb
    · split at h
      · exact absurd h (by simp)
      · simp only [Option.some.injEq, Prod.mk.injEq] at h
        obtain ⟨-, h2⟩ := h
        subst h2
        linarith [not_lt.mp (by assumption : ¬ b - a < 0)]

theorem walletDeposit_pos (b a : ℚ) (ha : 0 < a) (hb : 0 ≤ b) :
    walletDeposit b a = some (b + a) := by
  unfold walletDeposit
  rw [if_neg (by linarith), if_neg (by linarith)]

theorem walletWithdraw_ok (b a : ℚ) (ha : 0 < a) (hab : a ≤ b) :
    walletWithdraw b a = some (true, b - a) := by
  unfold walletWithdraw
  rw [if_neg (by linarith), if_neg (by linarith), if_neg (by linarith)]

theorem buyApply_snd_nonneg (s : Bool) (p2 : Portfolio) (cu : String)
    (amount rate cost : ℚ) (hp2 : NonNegP p2) :
    NonNegP (buyApply s p2 cu amount rate cost).2 := by
  simp only [buyApply]
  split
  · exact hp2
  split
  · exact hp2
  rename_i k w hw
  have nn3 := nonNegP_setBal p2 "USD" w hp2
    (walletWithdraw_nonneg _ _ k w (bal_nonneg _ _ hp2) hw)
  split
  · exact nn3
  rename_i d hd
  have nn4 := nonNegP_setBal _ cu d nn3 (walletDeposit_nonneg _ _ _ hd)
  split
  · exact nn4
  split
  · exact nn4
  rename_i d2 hd2
  have nn5 := nonNegP_setBal _ "USD" d2 nn4
    (walletDeposit_nonneg _ _ _ hd2)
  split
  · exact nn5
  rename_i k2 w2 hw2
  exact nonNegP_setBal _ cu w2 nn5
    (walletWithdraw_nonneg _ _ k2 w2 (bal_nonneg _ _ nn5) hw2)

theorem buy_snd_nonneg (env : TradeEnv) (p : Portfolio) (code : String)
    (amount : ℚ) (hp : NonNegP p) :
    NonNegP (buy_currency env p code amount).2 := by
  simp only [buy_currency]
  split
  · exact hp
  split
  · exact hp
  split
  · exact hp
  split
  · exact hp
  split
  · exact hp
  exact buyApply_snd_nonneg _ _ _ _ _ _
    (nonNegP_ensure _ _ (nonNegP_ensure _ _ hp))

theorem sellApply_snd_nonneg (s : Bool) (p : Portfolio) (cu : String)
    (amount rate revenue : ℚ) (hp : NonNegP p) :
    NonNegP (sellApply s p cu amount rate revenue).2 := by
  have hp1 : NonNegP (ensure p "USD") := nonNegP_ensure _ _ hp
  simp only [sellApply]
  split
  · exact hp1
  rename_i k w hw
  have nn2 := nonNegP_setBal (ensure p "USD") cu w hp1
    (walletWithdraw_nonneg _ _ k w (bal_nonneg _ _ hp1) hw)
  split
  · exact nn2
  rename_i d hd
  have nn3 := nonNegP_setBal _ "USD" d nn2
    (walletDeposit_nonneg _ _ _ hd)
  split
  · exact nn3
  split
  · exact nn3
  rename_i d2 hd2
  have nn4 := nonNegP_setBal _ cu d2 nn3
    (walletDeposit_nonneg _ _ _ hd2)
  split
  · exact nn4
  rename_i k2 w2 hw2
  exact nonNegP_setBal _ "USD" w2 nn4
    (walletWithdraw_nonneg _ _ k2 w2 (bal_nonneg _ _ nn4) hw2)

theorem sell_snd_nonneg (env : TradeEnv) (p : Portfolio) (code : String)
    (amount : ℚ) (hp : NonNegP p) :
    NonNegP (sell_currency env p code amount).2 := by
  simp only [sell_currency]
  split
  · exact hp
  split
  · exact hp
  split
  · exact hp
  split
  · exact hp
  split
  · exact hp
  split
  · exact hp
  split
  · exact hp
  exact sellApply_snd_nonneg _ _ _ _ _ _ hp

theorem applyOp_nonneg (p : Portfolio) (o : Op) (hp : NonNegP p) :
    NonNegP (applyOp p o) := by
  cases o with
  | dep c a =>
    simp only [applyOp]
    split
    · exact hp
    split
    · exact hp
    rename_i d hd
    exact nonNegP_setBal _ _ _ hp (walletDeposit_nonneg _ _ _ hd)
  | wd c a =>
    simp only [applyOp]
    split
    · exact hp
    rename_i b hb
    split
    · exact hp
    rename_i k w hw
    have h0 : 0 ≤ b := by
      simpa using hp (c, b) (lookupW_mem _ _ _ hb)
    exact nonNegP_setBal _ _ _ hp (walletWithdraw_nonneg _ _ k w h0 hw)
  | buyOp env c a => exact buy_snd_nonneg env p c a hp
  | sellOp env c a => exact sell_snd_nonneg env p c a hp

theorem sndPair {α β : Type} (a : α) (b : β) : (a, b).2 = b := rfl

theorem fstPair {α β : Type} (a : α) (b : β) : (a, b).1 = a := rfl

theorem buyApply_rollback (p2 : Portfolio) (cu : String)
    (amount rate cost : ℚ) (hp2 : NonNegP p2)
    (ha : 0 < amount) (hc : 0 < cost)
    (hsuff : cost ≤ bal p2 "USD") :
    (buyApply false p2 cu amount rate cost).1 = .softSaveFailed ∧
      ∀ c, bal (buyApply false p2 cu amount rate cost).2 c = bal p2 c := by
  have hins : ¬ bal p2 "USD" < cost := not_lt.mpr hsuff
  have hw1 : walletWithdraw (bal p2 "USD") cost =
      some (true, bal p2 "USD" - cost) := walletWithdraw_ok _ _ hc hsuff
  by_cases hcu : cu = "USD"
  · subst hcu
    have e3 : bal (setBal p2 "USD" (bal p2 "USD" - cost)) "USD"
        = bal p2 "USD" - cost := bal_setBal_self _ _ _
    have hd1 : walletDeposit
        (bal (setBal p2 "USD" (bal p2 "USD" - cost)) "USD") amount =
        some (bal p2 "USD" - cost + amount) := by
      rw [e3]
      exact walletDeposit_pos _ _ ha (by linarith)
    have e4 : bal (setBal (setBal p2 "USD" (bal p2 "USD" - cost)) "USD"
        (bal p2 "USD" - cost + amount)) "USD"
        = bal p2 "USD" - cost + amount := bal_setBal_self _ _ _
    have hd2 : walletDeposit
        (bal (setBal (setBal p2 "USD" (bal p2 "USD" - cost)) "USD"
          (bal p2 "USD" - cost + amount)) "USD") cost =
        some (bal p2 "USD" - cost + amount + cost) := by
      rw [e4]
      exact walletDeposit_pos _ _ hc (by linarith)
    have e5 : bal (setBal (setBal (setBal p2 "USD"
        (bal p2 "USD" - cost)) "USD"
        (bal p2 "USD" - cost + amount)) "USD"
        (bal p2 "USD" - cost + amount + cost)) "USD"
        = bal p2 "USD" - cost + amount + cost := bal_setBal_self _ _ _
    have hw2 : walletWithdraw
        (bal (setBal (setBal (setBal p2 "USD"
          (bal p2 "USD" - cost)) "USD"
          (bal p2 "USD" - cost + amount)) "USD"
          (bal p2 "USD" - cost + amount + cost)) "USD") amount =
        some (true, bal p2 "USD" - cost + amount + cost - amount) := by
      rw [e5]
      exact walletWithdraw_ok _ _ ha (by linarith)
    have heval : buyApply false p2 "USD" amount rate cost =
        (.softSaveFailed,
         setBal (setBal (setBal (setBal p2 "USD"
           (bal p2 "USD" - cost)) "USD"
           (bal p2 "USD" - cost + amount)) "USD"
           (bal p2 "USD" - cost + amount + cost)) "USD"
           (bal p2 "USD" - cost + amount + cost - amount)) := by
      simp only [buyApply, hins, if_false, hw1, hd1, hd2, hw2,
        Bool.false_eq_true]
    rw [heval, fstPair, sndPair]
    refine ⟨rfl, fun c => ?_⟩
    by_cases hcc : c = "USD"
    · subst hcc
      rw [bal_setBal_self]
      ring
    · rw [bal_setBal_ne _ _ _ _ hcc, bal_setBal_ne _ _ _ _ hcc,
        bal_setBal_ne _ _ _ _ hcc, bal_setBal_ne _ _ _ _ hcc]
  · have hcu' : ¬ ("USD" = cu) := fun hh => hcu (Eq.symm hh)
    have hb0 : 0 ≤ bal p2 cu := bal_nonneg _ _ hp2
    have e3 : bal (setBal p2 "USD" (bal p2 "USD" - cost)) cu
        = bal p2 cu := bal_setBal_ne _ _ _ _ hcu
    have hd1 : walletDeposit
        (bal (setBal p2 "USD" (bal p2 "USD" - cost)) cu) amount =
        some (bal p2 cu + amount) := by
      rw [e3]
      exact walletDeposit_pos _ _ ha hb0
    have e4 : bal (setBal (setBal p2 "USD" (bal p2 "USD" - cost)) cu
        (bal p2 cu + amount)) "USD" = bal p2 "USD" - cost := by
      rw [bal_setBal_ne _ _ _ _ hcu', bal_setBal_self]
    have hd2 : walletDeposit
        (bal (setBal (setBal p2 "USD" (bal p2 "USD" - cost)) cu
          (bal p2 cu + amount)) "USD") cost =
        some (bal p2 "USD" - cost + cost) := by
      rw [e4]
      exact walletDeposit_pos _ _ hc (by linarith)
    have e5 : bal (setBal (setBal (setBal p2 "USD"
        (bal p2 "USD" - cost)) cu (bal p2 cu + amount)) "USD"
        (bal p2 "USD" - cost + cost)) cu = bal p2 cu + amount := by
      rw [bal_setBal_ne _ _ _ _ hcu, bal_setBal_self]
    have hw2 : walletWithdraw
        (bal (setBal (setBal (setBal p2 "USD"
          (bal p2 "USD" - cost)) cu (bal p2 cu + amount)) "USD"
          (bal p2 "USD" - cost + cost)) cu) amount =
        some (true, bal p2 cu + amount - amount) := by
      rw [e5]
      exact walletWithdraw_ok _ _ ha (by linarith)
    have heval : buyApply false p2 cu amount rate cost =
        (.softSaveFailed,
         setBal (setBal (setBal (setBal p2 "USD"
           (bal p2 "USD" - cost)) cu (bal p2 cu + amount)) "USD"
           (bal p2 "USD" - cost + cost)) cu
           (bal p2 cu + amount - amount)) := by
      simp only [buyApply, hins, if_false, hw1, hd1, hd2, hw2,
        Bool.false_eq_true]
    rw [heval, fstPair, sndPair]
    refine ⟨rfl, fun c => ?_⟩
    by_cases hcc : c = cu
    · subst hcc
      rw [bal_setBal_self]
      ring
    · by_cases hcusd : c = "USD"
      · subst hcusd
        rw [bal_setBal_ne _ _ _ _ hcc, bal_setBal_self]
        ring
      · rw [bal_setBal_ne _ _ _ _ hcc, bal_setBal_ne _ _ _ _ hcusd,
          bal_setBal_ne _ _ _ _ hcc, bal_setBal_ne _ _ _ _ hcusd]

theorem buyApply_insufficient (s : Bool) (p2 : Portfolio) (cu : String)
    (amount rate cost : ℚ) (hins : bal p2 "USD" < cost) :
    buyApply s p2 cu amount rate cost =
      (.softInsufficient cost (bal p2 "USD"), p2) := by
  simp only [buyApply, if_pos hins]

theorem buy_eval_outer (env : TradeEnv) (p : Portfolio) (code : String)
    (amount rate : ℚ)
    (hl : env.loggedIn = true) (hA : 0 < amount)
    (hreg : pyUpper code ∈ CURRENCY_REGISTRY)
    (hmin : env.minTrade ≤ amount)
    (hro : env.rateOutcome = some rate) :
    buy_currency env p code amount =
      buyApply env.saveOk (ensure (ensure p "USD") (pyUpper code))
        (pyUpper code) amount rate
        (buyCost amount rate env.commissionRate) := by
  have hA' : ¬ amount ≤ 0 := not_le.mpr hA
  have hreg' : ¬ pyUpper code ∉ CURRENCY_REGISTRY := by simpa using hreg
  have hmin' : ¬ amount < env.minTrade := not_lt.mpr hmin
  simp only [buy_currency, hl, hro, Bool.not_true, Bool.false_eq_true,
    if_false, hA', hreg', hmin', ite_false]

/-- C1: whenever a `buy` reaches the wallet-mutation step with the
preconditions satisfied and persisting the portfolio fails,
`buy_currency` returns the save-failure soft result and every wallet
balance afterwards equals its value before the call: the in-memory
withdrawal of the cost and the deposit of the amount are inverted by
the compensating deposit and withdrawal before returning. -/
theorem buy_persistence_failure_rolls_back (env : TradeEnv)
    (p : Portfolio) (code : String) (amount rate : ℚ)
    (hp : NonNegP p)
    (hl : env.loggedIn = true)
    (hA : 0 < amount)
    (hreg : pyUpper code ∈ CURRENCY_REGISTRY)
    (hmin : env.minTrade ≤ amount)
    (hro : env.rateOutcome = some rate)
    (hr : 0 < rate)
    (hsv : env.saveOk = false)
    (hsuff : buyCost amount rate env.commissionRate ≤ bal p "USD") :
    (buy_currency env p code amount).1 = .softSaveFailed ∧
      ∀ c, bal (buy_currency env p code amount).2 c = bal p c := by
  have houter := buy_eval_outer env p code amount rate hl hA hreg hmin hro
  have hcost : 0 < buyCost amount rate env.commissionRate := by
    have har : 0 < amount * rate := mul_pos hA hr
    simp only [buyCost]
    split
    · nlinarith
    · exact har
  have hp2 : NonNegP (ensure (ensure p "USD") (pyUpper code)) :=
    nonNegP_ensure _ _ (nonNegP_ensure _ _ hp)
  have hb2 : ∀ c, bal (ensure (ensure p "USD") (pyUpper code)) c
      = bal p c := fun c => by rw [bal_ensure, bal_ensure]
  have hsuff2 : buyCost amount rate env.commissionRate
      ≤ bal (ensure (ensure p "USD") (pyUpper code)) "USD" := by
    rw [hb2]
    exact hsuff
  have hmain := buyApply_rollback
    (ensure (ensure p "USD") (pyUpper code)) (pyUpper code) amount rate
    (buyCost amount rate env.commissionRate) hp2 hA hcost hsuff2
  rw [houter, hsv]
  exact ⟨hmain.1, fun c => (hmain.2 c).trans (hb2 c)⟩

/-- C1 witness: a concrete failing-persistence buy on a 100 USD
wallet buying 1 BTC at rate 50 leaves the USD balance at 100. -/
theorem buy_persistence_failure_rolls_back_witness :
    (buy_currency
      { loggedIn := true, minTrade := 0, commissionRate := 0,
        rateOutcome := some 50, saveOk := false }
      [("USD", 100)] "BTC" 1).1 = .softSaveFailed ∧
    bal (buy_currency
      { loggedIn := true, minTrade := 0, commissionRate := 0,
        rateOutcome := some 50, saveOk := false }
      [("USD", 100)] "BTC" 1).2 "USD" = bal [("USD", 100)] "USD" := by
  have h := buy_persistence_failure_rolls_back
    { loggedIn := true, minTrade := 0, commissionRate := 0,
      rateOutcome := some 50, saveOk := false }
    [("USD", 100)] "BTC" 1 50 (by decide) rfl (by norm_num)
    (by decide) (by norm_num) rfl (by norm_num) rfl
    (by norm_num [buyCost, bal, lookupW])
  exact ⟨h.1, h.2 "USD"⟩

/-- C2: starting from any portfolio satisfying the wallet invariant,
no finite sequence of deposit, withdraw, buy and sell calls —
including failing or raising ones — can drive any stored wallet
balance below zero. -/
theorem wallet_balance_never_negative (p : Portfolio) (ops : List Op)
    (hp : NonNegP p) : NonNegP (applyOps p ops) := by
  induction ops generalizing p with
  | nil => exact hp
  | cons o rest ih =>
    have h2 := ih (applyOp p o) (applyOp_nonneg p o hp)
    simpa [applyOps, List.foldl_cons] using h2

/-- C2 witness: a concrete mixed sequence of a deposit, a withdrawal,
a persistence-failing buy and a successful sell keeps all balances
non-negative. -/
theorem wallet_balance_never_negative_witness :
    NonNegP [("USD", 100)] ∧
    NonNegP (applyOps [("USD", 100)]
      [Op.dep "USD" 50, Op.wd "USD" 30,
       Op.buyOp { loggedIn := true, minTrade := 0, commissionRate := 0,
                  rateOutcome := some 50, saveOk := false } "BTC" 1,
       Op.sellOp { loggedIn := true, minTrade := 0, commissionRate := 0,
                   rateOutcome := some 50, saveOk := true } "BTC" 1]) :=
  ⟨by decide,
   wallet_balance_never_negative [("USD", 100)]
     [Op.dep "USD" 50, Op.wd "USD" 30,
      Op.buyOp { loggedIn := true, minTrade := 0, commissionRate := 0,
                 rateOutcome := some 50, saveOk := false } "BTC" 1,
      Op.sellOp { loggedIn := true, minTrade := 0, commissionRate := 0,
                  rateOutcome := some 50, saveOk := true } "BTC" 1]
     (by decide)⟩

/-- C8: with the wallets in place, a buy whose cost exceeds the base
balance returns the soft insufficiency result carrying the required
and available amounts without touching any balance, while a sell of
more than the held amount raises `InsufficientFundsError(available,
required, code)` and leaves the portfolio untouched. -/
theorem insufficient_funds_buy_soft_sell_hard
    (envb : TradeEnv) (pb : Portfolio) (codeb : String) (ab rb : ℚ)
    (envs : TradeEnv) (ps : Portfolio) (codes : String) (as' : ℚ)
    (hbl : envb.loggedIn = true) (hbA : 0 < ab)
    (hbreg : pyUpper codeb ∈ CURRENCY_REGISTRY)
    (hbmin : envb.minTrade ≤ ab)
    (hbro : envb.rateOutcome = some rb)
    (hbins : bal pb "USD" < buyCost ab rb envb.commissionRate)
    (hsl : envs.loggedIn = true) (hsA : 0 < as')
    (hsreg : pyUpper codes ∈ CURRENCY_REGISTRY)
    (hsmin : envs.minTrade ≤ as')
    (hsw : hasWallet ps (pyUpper codes) = true)
    (hsins : bal ps (pyUpper codes) < as') :
    ((buy_currency envb pb codeb ab).1 =
        .softInsufficient (buyCost ab rb envb.commissionRate)
          (bal pb "USD") ∧
      ∀ c, bal (buy_currency envb pb codeb ab).2 c = bal pb c) ∧
    sell_currency envs ps codes as' =
      (.errInsufficient (bal ps (pyUpper codes)) as' (pyUpper codes),
       ps) := by
  constructor
  · have houter := buy_eval_outer envb pb codeb ab rb hbl hbA hbreg
      hbmin hbro
    have hb2 : ∀ c, bal (ensure (ensure pb "USD") (pyUpper codeb)) c
        = bal pb c := fun c => by rw [bal_ensure, bal_ensure]
    have hins2 : bal (ensure (ensure pb "USD") (pyUpper codeb)) "USD"
        < buyCost ab rb envb.commissionRate := by
      rw [hb2]
      exact hbins
    have happ := buyApply_insufficient envb.saveOk
      (ensure (ensure pb "USD") (pyUpper codeb)) (pyUpper codeb)
      ab rb (buyCost ab rb envb.commissionRate) hins2
    rw [houter, happ, fstPair, sndPair]
    exact ⟨by rw [hb2], hb2⟩
  · have hsA' : ¬ as' ≤ 0 := not_le.mpr hsA
    have hsreg' : ¬ pyUpper codes ∉ CURRENCY_REGISTRY := by
      simpa using hsreg
    have hsmin' : ¬ as' < envs.minTrade := not_lt.mpr hsmin
    simp only [sell_currency, hsl, hsA', hsreg', hsmin', hsw, hsins,
      Bool.not_true, Bool.false_eq_true, if_false, ite_false,
      ite_true, if_true]

/-- C8 witness: buying 1 BTC at rate 50 with only 10 USD fails softly
with required 50 and available 10, leaving the USD balance at 10;
selling 2 BTC while holding 1 raises the hard insufficiency carrying
(1, 2, BTC) and leaves the portfolio unchanged. -/
theorem insufficient_funds_buy_soft_sell_hard_witness :
    ((buy_currency
        { loggedIn := true, minTrade := 0, commissionRate := 0,
          rateOutcome := some 50, saveOk := true }
        [("USD", 10)] "BTC" 1).1 =
      .softInsufficient
        (buyCost 1 50
          ({ loggedIn := true, minTrade := 0, commissionRate := 0,
             rateOutcome := some 50, saveOk := true } : TradeEnv
            ).commissionRate)
        (bal [("USD", 10)] "USD") ∧
     bal (buy_currency
        { loggedIn := true, minTrade := 0, commissionRate := 0,
          rateOutcome := some 50, saveOk := true }
        [("USD", 10)] "BTC" 1).2 "USD" = bal [("USD", 10)] "USD") ∧
    sell_currency
        { loggedIn := true, minTrade := 0, commissionRate := 0,
          rateOutcome := some 50, saveOk := true }
        [("BTC", 1)] "BTC" 2 =
      (.errInsufficient (bal [("BTC", 1)] "BTC") 2 "BTC",
       [("BTC", 1)]) := by
  have e : pyUpper "BTC" = "BTC" := by decide
  have h := insufficient_funds_buy_soft_sell_hard
    { loggedIn := true, minTrade := 0, commissionRate := 0,
      rateOutcome := some 50, saveOk := true }
    [("USD", 10)] "BTC" 1 50
    { loggedIn := true, minTrade := 0, commissionRate := 0,
      rateOutcome := some 50, saveOk := true }
    [("BTC", 1)] "BTC" 2
    rfl (by norm_num) (by decide) (by norm_num) rfl
    (by norm_num [buyCost, bal, lookupW])
    rfl (by norm_num) (by decide) (by norm_num) (by decide)
    (by rw [e]; norm_num [bal, lookupW])
  rw [e] at h
  exact ⟨⟨h.1.1, h.1.2 "USD"⟩, h.2⟩

/-- C4: for a pair with a fresh cache entry, two consecutive
`get_rate` calls — the second run on the state the first returned —
both return the identical `(rate, updated_at)` taken from the cached
entry, and neither takes the refresh path that invokes the provider
adapters. -/
theorem get_rate_fresh_idempotent (pt : String → Option ℤ)
    (now1 now2 ttl : ℤ) (st : CacheDoc) (ro1 ro2 : Option CacheDoc)
    (f t : String) (e : PairEntry)
    (hf : pyUpper f ∈ CURRENCY_REGISTRY)
    (ht : pyUpper t ∈ CURRENCY_REGISTRY)
    (he : lookupP st.pairs (pyUpper f ++ "_" ++ pyUpper t) = some e)
    (h1 : is_rate_fresh pt now1 ttl e = true)
    (h2 : is_rate_fresh pt now2 ttl e = true) :
    get_rate pt now1 ttl st ro1 f t =
      (.ok e.rate e.updated_at, st, false) ∧
    get_rate pt now2 ttl (get_rate pt now1 ttl st ro1 f t).2.1 ro2 f t
      = (.ok e.rate e.updated_at, st, false) := by
  have hc1 : get_rate_from_cache pt now1 ttl st (pyUpper f)
      (pyUpper t) = some (e.rate, e.updated_at) := by
    simp [get_rate_from_cache, he, h1]
  have hc2 : get_rate_from_cache pt now2 ttl st (pyUpper f)
      (pyUpper t) = some (e.rate, e.updated_at) := by
    simp [get_rate_from_cache, he, h2]
  have heval1 : get_rate pt now1 ttl st ro1 f t =
      (.ok e.rate e.updated_at, st, false) := by
    simp only [get_rate, hf, ht, hc1, not_true, or_self, if_false,
      ite_false, not_false_iff]
  refine ⟨heval1, ?_⟩
  rw [heval1]
  simp only [get_rate, hf, ht, hc2, not_true, or_self, if_false,
    ite_false, not_false_iff]

/-- C4 witness: a fresh BTC_USD entry is returned identically by two
back-to-back calls with no refresh. -/
theorem get_rate_fresh_idempotent_witness :
    get_rate (fun s => if s = "T1" then some 0 else none) 100 300
      { pairs := [("BTC_USD",
          { rate := 50000, updated_at := "T1", source := "X" })],
        last_refresh := none } none "BTC" "USD" =
      (.ok 50000 "T1",
       { pairs := [("BTC_USD",
           { rate := 50000, updated_at := "T1", source := "X" })],
         last_refresh := none }, false) ∧
    get_rate (fun s => if s = "T1" then some 0 else none) 200 300
      (get_rate (fun s => if s = "T1" then some 0 else none) 100 300
        { pairs := [("BTC_USD",
            { rate := 50000, updated_at := "T1", source := "X" })],
          last_refresh := none } none "BTC" "USD").2.1
      none "BTC" "USD" =
      (.ok 50000 "T1",
       { pairs := [("BTC_USD",
           { rate := 50000, updated_at := "T1", source := "X" })],
         last_refresh := none }, false) :=
  get_rate_fresh_idempotent (fun s => if s = "T1" then some 0 else none)
    100 200 300
    { pairs := [("BTC_USD",
        { rate := 50000, updated_at := "T1", source := "X" })],
      last_refresh := none } none none "BTC" "USD"
    { rate := 50000, updated_at := "T1", source := "X" }
    (by decide) (by decide) (by decide) (by decide) (by decide)

/-- C6: when both codes resolve, no fresh cache entry exists for the
pair, and the cache-wide `last_refresh` parses and lies within the
TTL, `get_rate` raises the `ApiRequestError` for a pair missing from
a fresh cache and does not take the refresh path. -/
theorem get_rate_fresh_cache_missing_pair (pt : String → Option ℤ)
    (now ttl : ℤ) (st : CacheDoc) (ro : Option CacheDoc)
    (f t : String) (s : String) (lr : ℤ)
    (hf : pyUpper f ∈ CURRENCY_REGISTRY)
    (ht : pyUpper t ∈ CURRENCY_REGISTRY)
    (hmiss : get_rate_from_cache pt now ttl st (pyUpper f)
      (pyUpper t) = none)
    (hlr : st.last_refresh = some s)
    (hpt : pt s = some lr)
    (hfresh : now - lr < ttl) :
    get_rate pt now ttl st ro f t =
      (.errUnavailableInCache, st, false) := by
  simp only [get_rate, hf, ht, hmiss, hlr, hpt, hfresh, not_true,
    or_self, if_false, ite_false, ite_true, if_true, not_false_iff,
    decide_True]

/-- C6 witness: an empty fresh cache (last_refresh within TTL) makes
a BTC to USD lookup fail without refreshing. -/
theorem get_rate_fresh_cache_missing_pair_witness :
    get_rate (fun s => if s = "T1" then some 0 else none) 100 300
      { pairs := [], last_refresh := some "T1" } none "BTC" "USD" =
      (.errUnavailableInCache,
       { pairs := [], last_refresh := some "T1" }, false) :=
  get_rate_fresh_cache_missing_pair
    (fun s => if s = "T1" then some 0 else none) 100 300
    { pairs := [], last_refresh := some "T1" } none "BTC" "USD"
    "T1" 0 (by decide) (by decide) (by decide) rfl (by decide)
    (by decide)

/-- C10: in non-mock mode, a failure inside the fiat `fetch_rates`
other than an already-classified `ApiRequestError` does not raise:
it returns the same deterministic mock table mock mode returns, as a
normal successful-looking value. -/
theorem fiat_fetch_fallback_returns_mock (fc : List String)
    (o : FetchOutcome) :
    fetch_rates_fiat false .otherError fc = .ok MOCK_RATES ∧
    fetch_rates_fiat true o fc = .ok MOCK_RATES := by
  constructor <;> simp [fetch_rates_fiat]

theorem append_usd_cancel {k : String} (h : k ++ "_USD" = "USD_USD") :
    k = "USD" := by
  have h1 := congrArg String.data h
  rw [String.data_append] at h1
  have hlit : "USD_USD".data = "USD".data ++ "_USD".data := by decide
  rw [hlit] at h1
  exact String.ext (List.append_cancel_right h1)

theorem reload_pairs_core (t1 t2 tR : String)
    (raw : List (String × RawInfo))
    (hts : ∀ e ∈ raw, (Prod.snd e).timestamp.isSome = true) :
    List.map (fun e : String × FlatEntry => (e.1,
        ({ rate := e.2.rate.getD 0,
           updated_at := e.2.updated_at.getD tR,
           source := e.2.source.getD "ParserService" } : PairEntry)))
      (List.filterMap (fun ci : String × RawInfo =>
        if ci.1 = "USD" then none
        else some (ci.1 ++ "_USD",
          ({ rate := some ci.2.rate,
             updated_at := some (tsOf t2 ci.2),
             source := none } : FlatEntry))) raw) =
    List.filterMap (fun e : String × PairEntry =>
        if e.1 = "USD_USD" then none
        else some (e.1, { e.2 with source := "ParserService" }))
      (List.filterMap (fun ci : String × RawInfo =>
        if ci.1 = "USD" then none
        else some (ci.1 ++ "_USD",
          ({ rate := ci.2.rate, updated_at := tsOf t1 ci.2,
             source := ci.2.source.getD "Unknown" } : PairEntry)))
        raw) := by
  induction raw with
  | nil => rfl
  | cons e rest ih =>
    obtain ⟨k, i⟩ := e
    have hi : i.timestamp.isSome = true := hts (k, i) (by simp)
    obtain ⟨ts, hts'⟩ := Option.isSome_iff_exists.mp hi
    have hrest : ∀ e ∈ rest, (Prod.snd e).timestamp.isSome = true :=
      fun x hx => hts x (List.mem_cons_of_mem _ hx)
    by_cases hk : k = "USD"
    · simpa [List.filterMap_cons, hk] using ih hrest
    · have hne : ¬ (k ++ "_USD" = "USD_USD") :=
        fun h => hk (append_usd_cancel h)
      simp only [List.filterMap_cons, if_neg hk, List.map_cons,
        if_neg hne]
      exact congrArg₂ List.cons (by simp [tsOf, hts']) (ih hrest)

theorem reload_pairs_full (t1 t2 tR : String)
    (raw : List (String × RawInfo))
    (hts : ∀ e ∈ raw, (Prod.snd e).timestamp.isSome = true) :
    List.map (fun e : String × FlatEntry => (e.1,
        ({ rate := e.2.rate.getD 0,
           updated_at := e.2.updated_at.getD tR,
           source := e.2.source.getD "ParserService" } : PairEntry)))
      (List.filterMap (fun ci : String × RawInfo =>
        if ci.1 = "USD" then none
        else some (ci.1 ++ "_USD",
          ({ rate := some ci.2.rate,
             updated_at := some (tsOf t2 ci.2),
             source := none } : FlatEntry))) raw) =
    List.filterMap (fun e : String × PairEntry =>
        if e.1 = "USD_USD" then none
        else some (e.1, { e.2 with source := "ParserService" }))
      (List.filterMap (fun ci : String × RawInfo =>
        if ci.1 = "USD" then none
        else some (ci.1 ++ "_USD",
          ({ rate := ci.2.rate, updated_at := tsOf t1 ci.2,
             source := ci.2.source.getD "Unknown" } : PairEntry)))
        raw ++
       [("USD_USD",
         { rate := 1, updated_at := t1, source := "System" })]) := by
  rw [List.filterMap_append]
  have husd : List.filterMap (fun e : String × PairEntry =>
      if e.1 = "USD_USD" then none
      else some (e.1, { e.2 with source := "ParserService" }))
      [("USD_USD",
        { rate := 1, updated_at := t1, source := "System" })]
      = [] := by simp
  rw [husd, List.append_nil]
  exact reload_pairs_core t1 t2 tR raw hts

theorem crypto_safe_ts (ts : String)
    (fetch : Option (List (String × ℚ))) :
    ∀ e ∈ crypto_safe ts fetch,
      (Prod.snd e).timestamp.isSome = true := by
  intro e he
  cases fetch with
  | none => simp [crypto_safe] at he
  | some raw =>
    simp only [crypto_safe] at he
    split at he
    · simp at he
    · obtain ⟨a, ha, hfa⟩ := List.mem_filterMap.mp he
      split at hfa
      · simp only [Option.some.injEq] at hfa
        subst hfa
        rfl
      · simp at hfa

theorem fiat_safe_ts (ts : String) (mock : Bool)
    (fetch : Option (List (String × ℚ))) :
    ∀ e ∈ fiat_safe ts mock fetch,
      (Prod.snd e).timestamp.isSome = true := by
  intro e he
  cases fetch with
  | none => simp [fiat_safe] at he
  | some raw =>
    simp only [fiat_safe] at he
    split at he
    · simp at he
    · obtain ⟨a, ha, hfa⟩ := List.mem_filterMap.mp he
      split at hfa
      · split at hfa
        · simp at hfa
        · simp only [Option.some.injEq] at hfa
          subst hfa
          rfl
      · simp at hfa

/-- C5 counterexample: after a refresh whose crypto fetch returned
one BTC_USD pair and whose fiat fetch failed, reloading the persisted
cache does not reproduce the pairs mapping of the snapshot the
refresh produced: the synthesized USD_USD pair is gone and the
per-pair source is rewritten to the cache-level tag. -/
theorem refresh_reload_roundtrip_counterexample :
    (load_rates "T9" (run_update "T0" "T1" "T2" "T3" true
        (some [("BTC_USD", 50000)]) none).cacheDoc).pairs ≠
      (run_update "T0" "T1" "T2" "T3" true
        (some [("BTC_USD", 50000)]) none).finalRates.pairs := by
  decide

/-- C5 amended: reload after a full refresh reproduces the
`last_refresh` stamp written by `update_rates_cache`, and reproduces
the produced snapshot's pairs only up to dropping the synthesized
USD_USD pair and rewriting every per-pair source to the cache-level
`"ParserService"`; each remaining pair's rate and `updated_at` are
preserved exactly. -/
theorem reload_after_refresh
    (tStart tCacheWrite tsC tsF tReload : String) (mock : Bool)
    (cf ff : Option (List (String × ℚ))) :
    (load_rates tReload (run_update tStart tCacheWrite tsC tsF mock
        cf ff).cacheDoc).last_refresh = some tCacheWrite ∧
    (load_rates tReload (run_update tStart tCacheWrite tsC tsF mock
        cf ff).cacheDoc).pairs =
      (run_update tStart tCacheWrite tsC tsF mock cf
          ff).finalRates.pairs.filterMap fun e =>
        if e.1 = "USD_USD" then none
        else some (e.1, { e.2 with source := "ParserService" }) := by
  constructor
  · rfl
  · have hts : ∀ e ∈ (crypto_safe tsC cf ++ fiat_safe tsF mock ff ++
        [("USD", ({ rate := 1, timestamp := some tStart,
                    source := some "System" } : RawInfo))]),
        (Prod.snd e).timestamp.isSome = true := by
      intro e he
      rcases List.mem_append.mp he with h1 | h2
      · rcases List.mem_append.mp h1 with ha | hb
        · exact crypto_safe_ts tsC cf e ha
        · exact fiat_safe_ts tsF mock ff e hb
      · simp only [List.mem_singleton] at h2
        subst h2
        rfl
    simp only [load_rates, convert_old_format, update_rates_cache,
      run_update, add_metadata, Option.getD_some]
    exact reload_pairs_full tStart tCacheWrite tReload _ hts

theorem lookupP_append_last (l : List (String × PairEntry))
    (k : String) (e : PairEntry) (h : ∀ x ∈ l, x.1 ≠ k) :
    lookupP (l ++ [(k, e)]) k = some e := by
  induction l with
  | nil => simp [lookupP]
  | cons x rest ih =>
    obtain ⟨k', e'⟩ := x
    have hk' : k' ≠ k := h (k', e') (by simp)
    simp only [List.cons_append, lookupP, if_neg hk']
    exact ih fun y hy => h y (List.mem_cons_of_mem _ hy)

/-- C7 counterexample: the synthesized base self pair carries source
`"System"` (capital S), not the claimed `"system"`. -/
theorem refresh_base_pair_source_counterexample :
    lookupP (run_update "T0" "T1" "T2" "T3" true none
        (some [("EUR_USD", 2)])).finalRates.pairs "USD_USD" =
      some { rate := 1, updated_at := "T0", source := "System" } ∧
    ("System" : String) ≠ "system" := by
  decide

/-- C7 amended: a failing crypto adapter contributes nothing, yet the
fiat adapter's pairs are still written to the cache; `last_refresh`
advances to the refresh's cache-write time on such a partial
success; symmetrically a failing fiat adapter leaves exactly the
crypto pairs; and the USD_USD base pair is always synthesized in the
produced snapshot with rate 1.0 and source `"System"`. -/
theorem refresh_partial_merge (tStart tCacheWrite tsC tsF : String)
    (mock : Bool) (cf ff : Option (List (String × ℚ))) :
    crypto_safe tsC none = [] ∧
    (run_update tStart tCacheWrite tsC tsF mock none
        ff).cacheDoc.entries =
      (fiat_safe tsF mock ff).filterMap (fun ci =>
        if ci.1 = "USD" then none
        else some (ci.1 ++ "_USD",
          ({ rate := some ci.2.rate,
             updated_at := some (tsOf tCacheWrite ci.2),
             source := none } : FlatEntry))) ∧
    (run_update tStart tCacheWrite tsC tsF mock cf
        none).cacheDoc.entries =
      (crypto_safe tsC cf).filterMap (fun ci =>
        if ci.1 = "USD" then none
        else some (ci.1 ++ "_USD",
          ({ rate := some ci.2.rate,
             updated_at := some (tsOf tCacheWrite ci.2),
             source := none } : FlatEntry))) ∧
    (run_update tStart tCacheWrite tsC tsF mock none
        ff).cacheDoc.last_refresh = some tCacheWrite ∧
    lookupP (run_update tStart tCacheWrite tsC tsF mock cf
        ff).finalRates.pairs "USD_USD" =
      some { rate := 1, updated_at := tStart, source := "System" } := by
  refine ⟨rfl, ?_, ?_, rfl, ?_⟩
  · simp [run_update, update_rates_cache, crypto_safe,
      List.filterMap_append]
  · simp [run_update, update_rates_cache, fiat_safe,
      List.filterMap_append]
  · simp only [run_update, add_metadata]
    apply lookupP_append_last
    intro x hx
    obtain ⟨a, ha, hfa⟩ := List.mem_filterMap.mp hx
    by_cases hk : a.1 = "USD"
    · simp [hk] at hfa
    · simp only [if_neg hk, Option.some.injEq] at hfa
      subst hfa
      exact fun h => hk (append_usd_cancel h)

/-- C3 counterexample: migrating a legacy document whose EUR_USD
entry carries rate -1 (and whose GBP_USD entry has no rate at all)
stores the non-positive rate unchanged and substitutes 0 for the
missing one — neither value is rejected, so the cache ends up with
pairs whose rate is not strictly positive. -/
theorem cache_rate_positive_counterexample :
    (convert_old_format "T"
      { entries :=
          [("EUR_USD", { rate := some (-1), updated_at := some "T0",
                         source := some "X" }),
           ("GBP_USD", { rate := none, updated_at := some "T0",
                         source := some "X" })],
        source := none, last_refresh := some "T0" }).pairs =
      [("EUR_USD", { rate := -1, updated_at := "T0", source := "X" }),
       ("GBP_USD", { rate := 0, updated_at := "T0", source := "X" })]
    ∧ ¬ (∀ e ∈ (convert_old_format "T"
      { entries :=
          [("EUR_USD", { rate := some (-1), updated_at := some "T0",
                         source := some "X" }),
           ("GBP_USD", { rate := none, updated_at := some "T0",
                         source := some "X" })],
        source := none, last_refresh := some "T0" }).pairs,
        0 < (Prod.snd e).rate) := by
  decide

/-- C3 amended: only the historical-record path enforces positivity:
`create_exchange_rate_record` raises for a non-positive rate and
otherwise stores the given rate unchanged, while the cache-migration
path passes every rate through unvalidated, substituting 0 for a
missing one. -/
theorem rate_positivity_only_in_record_path
    (now f t source : String) (r : ℚ) (d : FlatDoc)
    (hf : validCode (pyStrip (pyUpper f)) = true)
    (ht : validCode (pyStrip (pyUpper t)) = true) :
    ((r ≤ 0 → create_exchange_rate_record now f t r source =
        .error "bad rate") ∧
     (0 < r → create_exchange_rate_record now f t r source =
        .ok { id := generate_id (pyStrip (pyUpper f))
                (pyStrip (pyUpper t)) now
              from_currency := pyStrip (pyUpper f)
              to_currency := pyStrip (pyUpper t)
              rate := r
              timestamp := now
              source := source })) ∧
    ((convert_old_format now d).pairs.map fun e => (Prod.snd e).rate)
      = d.entries.map fun e => (Prod.snd e).rate.getD 0 := by
  refine ⟨⟨fun hr => ?_, fun hr => ?_⟩, ?_⟩
  · simp only [create_exchange_rate_record, hf, ht, Bool.not_true,
      Bool.false_eq_true, if_false, if_pos hr, ite_false]
  · simp only [create_exchange_rate_record, hf, ht, Bool.not_true,
      Bool.false_eq_true, if_false, if_neg (not_le.mpr hr), ite_false]
  · simp [convert_old_format, List.map_map]

/-- C3 amended witness: a BTC to USD record at rate -1 is rejected,
and the migration of a document with a missing rate yields the rate
list [0]. -/
theorem rate_positivity_only_in_record_path_witness :
    create_exchange_rate_record "T" "BTC" "USD" (-1) "X" =
      .error "bad rate" ∧
    ((convert_old_format "T"
      { entries := [("GBP_USD",
          { rate := none, updated_at := some "T0",
            source := some "X" })],
        source := none, last_refresh := some "T0" }).pairs.map
      fun e => (Prod.snd e).rate) = [0] := by
  have h := rate_positivity_only_in_record_path "T" "BTC" "USD" "X"
    (-1)
    { entries := [("GBP_USD",
        { rate := none, updated_at := some "T0",
          source := some "X" })],
      source := none, last_refresh := some "T0" }
    (by decide) (by decide)
  exact ⟨h.1.1 (by norm_num), h.2⟩

theorem totalStep_eq (b : String) (acc : ℚ) (w : String × ℚ) :
    totalStep b acc w =
      acc + w.2 * (routeRate (pyUpper w.1) b).getD 0 := by
  simp only [totalStep, routeRate]
  cases h1 : tableLookup (pyUpper w.1) b with
  | some r => simp
  | none =>
    by_cases h2 : pyUpper w.1 = b
    · simp [h2]
    · simp only [if_neg h2]
      cases h3 : tableLookup (pyUpper w.1) "USD" with
      | none => simp
      | some toUsd =>
        cases h4 : tableLookup "USD" b with
        | none => simp
        | some r2 =>
          simp
          ring

theorem foldl_totalStep (b : String) (p : Portfolio) (acc : ℚ) :
    p.foldl (totalStep b) acc =
      acc + (p.map fun w =>
        w.2 * (routeRate (pyUpper w.1) b).getD 0).sum := by
  induction p generalizing acc with
  | nil => simp
  | cons w rest ih =>
    simp only [List.foldl_cons, List.map_cons, List.sum_cons,
      totalStep_eq, ih]
    ring

/-- C9 counterexample: a logged-in user holding 5 LTC — a registered
currency with no entry in the fixed conversion table — gets a
successful `show_portfolio` answer whose total is 0: the unavailable
conversion is silently skipped rather than failing loudly, and no
rate-cache value is involved. -/
theorem show_portfolio_counterexample :
    show_portfolio true "USD" [("LTC", 5)] "EUR" =
      .loaded [("LTC", 5)] 0 ∧ "LTC" ∈ CURRENCY_REGISTRY := by
  have e1 : pyUpper "EUR" = "EUR" := by decide
  have e2 : pyUpper "LTC" = "LTC" := by decide
  constructor
  · simp [show_portfolio, get_total_value, e1, e2, totalStep,
      tableRow, tableLookup, EXCHANGE_RATES, lookupW, round2,
      List.foldl, List.find?]
  · decide

/-- C9 amended: `show_portfolio` for a logged-in user with a
non-empty portfolio always succeeds, and the total it reports comes
from the fixed in-code table only: each wallet contributes its
balance times the table route (direct entry, identity on the base
itself, else via USD) and contributes zero when no route exists; the
rate cache plays no part and no failure is raised for unavailable
rates. -/
theorem show_portfolio_fixed_table (p : Portfolio)
    (base defaultBase : String) (hp : p ≠ []) :
    show_portfolio true defaultBase p base =
      .loaded p (get_total_value p
        (if base = "" ∨ base = "USD" then defaultBase else base)) ∧
    ∀ b, get_total_value p b =
      round2 ((p.map fun w =>
        w.2 * (routeRate (pyUpper w.1)
          (if (tableRow (pyUpper b)).isSome then pyUpper b
           else "USD")).getD 0).sum) := by
  constructor
  · simp [show_portfolio, hp]
  · intro b
    simp only [get_total_value]
    rw [foldl_totalStep, zero_add]

/-- C9 amended witness: a 2 BTC portfolio viewed in EUR succeeds and
its total is the table-route sum. -/
theorem show_portfolio_fixed_table_witness :
    show_portfolio true "USD" [("BTC", 2)] "EUR" =
      .loaded [("BTC", 2)] (get_total_value [("BTC", 2)]
        (if ("EUR" : String) = "" ∨ ("EUR" : String) = "USD"
         then "USD" else "EUR")) ∧
    get_total_value [("BTC", 2)] "EUR" =
      round2 (([("BTC", 2)].map fun w =>
        (Prod.snd w) * (routeRate (pyUpper w.1)
          (if (tableRow (pyUpper "EUR")).isSome then pyUpper "EUR"
           else "USD")).getD 0).sum) := by
  have h := show_portfolio_fixed_table [("BTC", 2)] "EUR" "USD"
    (by decide)
  exact ⟨h.1, h.2 "EUR"⟩

end ValutaTrade
